import Mathlib

/-!
Verification development for the Spector load-testing harness
(`scripts/loadtest.py`).

The repository itself is configuration and glue around a pre-built
load-testing engine (Locust): the two user classes `SpectorUser` and
`HighLoadUser` contribute the action lists, task weights, pacing intervals
and default headers, while the scheduling engine (weighted action selector,
pacing policy, virtual-user loop, population manager, outcome aggregator)
is supplied by the engine and is not part of the repository's sources.
Definitions taken from the repository's source file are embedded directly;
the engine components are modelled from the specification, each marked
`Modelled from the spec:` in its doc comment.
-/

namespace Spector

/-- An action a virtual user can perform: a named HTTP GET with a relative
integer weight, as declared by the `@task(n)` decorators in the source. -/
structure ActionSpec where
  name : String
  weight : Nat
  path : String
deriving DecidableEq

/-- Default-header mapping of an HTTP client, header name to value. -/
abbrev Headers := List (String × String)

/-- Modelled from the spec: total weight of an ordered action sequence
(`total = sum of weights` in the selector algorithm). -/
def totalWeight (actions : List ActionSpec) : Nat :=
  (actions.map (fun a => a.weight)).sum

/-- Modelled from the spec: cumulative weight of the first `i` actions of the
sequence; the selector stops at the first index whose cumulative weight
exceeds the random draw. -/
def cumWeight (actions : List ActionSpec) (i : Nat) : Nat :=
  totalWeight (actions.take i)

/-- Modelled from the spec: the selector's walk. Given the random draw `r`,
walk the sequence accumulating weights until the cumulative sum exceeds `r`
and return that action; `none` when the walk falls off the end (only possible
when `r` is at least the total weight). -/
def selectWalk : List ActionSpec → Nat → Option ActionSpec
  | [], _ => none
  | a :: rest, r => if r < a.weight then some a else selectWalk rest (r - a.weight)

/-- Modelled from the spec: the error taxonomy of §7. `ConfigurationError`
is fatal and raised before any user starts. -/
inductive ConfigurationError
  | emptyActions
  | zeroTotalWeight
  | nonpositiveWeight
  | invalidPacing
deriving DecidableEq

/-- Modelled from the spec: `select(actions) -> ActionSpec`. The entropy
value `r` models the uniformly random integer drawn in `[0, total)` (an
arbitrary entropy value is reduced into that range; when `r < total` the
reduction is the identity). Fails with `ConfigurationError` when the action
sequence is empty or the total weight is zero. -/
def select (actions : List ActionSpec) (r : Nat) :
    Except ConfigurationError ActionSpec :=
  if actions.isEmpty then .error .emptyActions
  else if totalWeight actions = 0 then .error .zeroTotalWeight
  else
    match selectWalk actions (r % totalWeight actions) with
    | some a => .ok a
    | none => .error .zeroTotalWeight

/-- The ordered action sequence of `SpectorUser`, read off the five `@task`
methods of the source in declaration order: names, weights and request paths
come from `@task(10) load_app_home` through `@task(1) load_settings`. -/
def SpectorUser.actions : List ActionSpec :=
  [⟨"App Home", 10, "/app"⟩,
   ⟨"Products API", 5, "/app/api/products"⟩,
   ⟨"Analytics API", 3, "/app/api/product-analytics"⟩,
   ⟨"Forecasting API", 3, "/app/api/inventory-forecasting"⟩,
   ⟨"Settings", 1, "/app/settings"⟩]

/-- The single action of `HighLoadUser`: `bulk_product_fetch`, declared with
a bare `@task` decorator, whose default weight is 1. -/
def HighLoadUser.actions : List ActionSpec :=
  [⟨"Bulk Products", 1, "/app/api/products"⟩]

/-- Modelled from the spec: the pacing policy `next_delay`. A uniform draw
from `[min_seconds, max_seconds]` is `min + u * (max - min)` for a uniform
entropy value `u` in `[0, 1]`. -/
def next_delay (mn mx u : ℚ) : ℚ := mn + u * (mx - mn)

/-- The pacing of `SpectorUser`: `wait_time = between(1, 3)` in the source,
i.e. a uniform draw from `[1, 3]` seconds. -/
def SpectorUser.wait_time (u : ℚ) : ℚ := next_delay 1 3 u

/-- The pacing of `HighLoadUser`: `wait_time = between(0.5, 1)` in the
source, i.e. a uniform draw from `[0.5, 1]` seconds. -/
def HighLoadUser.wait_time (u : ℚ) : ℚ := next_delay (1/2) 1 u

/-- The header assignment performed by `SpectorUser.on_start` in the source:
`self.client.headers = {...}` replaces the client's default header mapping
with exactly the two JSON entries, regardless of what it held before. -/
def SpectorUser.on_start (_prior : Headers) : Headers :=
  [("Content-Type", "application/json"), ("Accept", "application/json")]

/-- `HighLoadUser` declares no `on_start`, so it inherits the engine's no-op
and leaves the client's default headers untouched. -/
def HighLoadUser.on_start (prior : Headers) : Headers := prior

/-- Modelled from the spec: the `UserProfile` record of §3 — identifier,
ordered action sequence, pacing interval, and default headers. The headers
are optional: a profile with `none` leaves the transport's own defaults in
place (as `HighLoadUser` does), while `some h` replaces them with `h` on
start (as `SpectorUser` does). -/
structure UserProfile where
  identifier : String
  actions : List ActionSpec
  pacing : ℚ × ℚ
  default_headers : Option Headers
deriving DecidableEq

/-- `SpectorUser` as profile data: its five weighted actions, `between(1, 3)`
pacing, and the two JSON default headers set in `on_start`. -/
def spectorProfile : UserProfile :=
  ⟨"SpectorUser", SpectorUser.actions, (1, 3),
   some [("Content-Type", "application/json"), ("Accept", "application/json")]⟩

/-- `HighLoadUser` as profile data: one action, `between(0.5, 1)` pacing, no
default headers of its own. -/
def highLoadProfile : UserProfile :=
  ⟨"HighLoadUser", HighLoadUser.actions, (1/2, 1), none⟩

/-- Modelled from the spec: the header initialization a Virtual User performs
on start, driven purely by profile data. -/
def genericOnStart (p : UserProfile) (prior : Headers) : Headers :=
  match p.default_headers with
  | some h => h
  | none => prior

/-- Modelled from the spec: the pacing draw of a profile-driven user. -/
def genericWait (p : UserProfile) (u : ℚ) : ℚ :=
  next_delay p.pacing.1 p.pacing.2 u

/-- Modelled from the spec: the action draw of a profile-driven user. -/
def genericSelect (p : UserProfile) (r : Nat) :
    Except ConfigurationError ActionSpec :=
  select p.actions r

/-- Modelled from the spec: the `OutcomeRecord` of §3, produced on every
completed action and never mutated afterwards. -/
structure OutcomeRecord where
  action_name : String
  duration : ℚ
  succeeded : Bool
  status_code : Option Nat
deriving DecidableEq

/-- Modelled from the spec: the result the transport collaborator returns
for one executed request — either a success, or a failure (network error,
carrying no status, or a non-success status). -/
inductive ExecOutcome
  | success (status : Nat) (duration : ℚ)
  | failure (status : Option Nat) (duration : ℚ)
deriving DecidableEq

/-- Modelled from the spec: the `OutcomeRecord` built from one executed
action; a failed execution still yields a valid record, with
`succeeded = false`. -/
def mkRecord (name : String) : ExecOutcome → OutcomeRecord
  | .success s d => ⟨name, d, true, some s⟩
  | .failure s d => ⟨name, d, false, s⟩

/-- Modelled from the spec: the states of the Virtual User state machine. -/
inductive Phase
  | Starting
  | Acting
  | Waiting
  | Stopped
deriving DecidableEq

/-- Modelled from the spec: one Virtual User — its state-machine phase, its
client's default headers, and the records it has handed to the Aggregator,
in order. -/
structure VUser where
  phase : Phase
  headers : Headers
  records : List OutcomeRecord
deriving DecidableEq

/-- Modelled from the spec: a freshly spawned user, before header
initialization; `h0` is the transport's own default header mapping. -/
def initUser (h0 : Headers) : VUser := ⟨.Starting, h0, []⟩

/-- Modelled from the spec: one step of the Virtual User loop. `stop` is the
stop signal observed at this step, `r` the selection draw, and `out` the
transport's result for the executed action. Starting initializes headers and
moves to Acting; Acting checks the stop signal before selecting and
executing an action, appends the resulting record and moves to Waiting;
Waiting checks the stop signal and moves back to Acting; Stopped is
terminal. The step is a total function: no branch raises. -/
def userStep (p : UserProfile) (s : VUser) (stop : Bool) (r : Nat)
    (out : ExecOutcome) : VUser :=
  match s.phase with
  | .Starting => { s with phase := .Acting, headers := genericOnStart p s.headers }
  | .Acting =>
    if stop then { s with phase := .Stopped }
    else
      match genericSelect p r with
      | .ok a => { s with phase := .Waiting, records := s.records ++ [mkRecord a.name out] }
      | .error _ => { s with phase := .Stopped }
  | .Waiting => if stop then { s with phase := .Stopped } else { s with phase := .Acting }
  | .Stopped => s

/-- Modelled from the spec: the run loop as a step trace. `stops t`, `rs t`
and `outs t` are the stop-signal value, selection draw and transport result
at step `t`. -/
def userTrace (p : UserProfile) (h0 : Headers) (stops : Nat → Bool)
    (rs : Nat → Nat) (outs : Nat → ExecOutcome) : Nat → VUser
  | 0 => initUser h0
  | t + 1 => userStep p (userTrace p h0 stops rs outs t) (stops t) (rs t) (outs t)

/-- Modelled from the spec: profile validation — `ConfigurationError` on an
empty action set, a non-positive weight, a zero total weight, or `min > max`
pacing. -/
def validateProfile (p : UserProfile) : Except ConfigurationError Unit :=
  if p.actions.isEmpty then .error .emptyActions
  else if p.actions.any (fun a => a.weight = 0) then .error .nonpositiveWeight
  else if totalWeight p.actions = 0 then .error .zeroTotalWeight
  else if p.pacing.2 < p.pacing.1 then .error .invalidPacing
  else .ok ()

/-- Modelled from the spec: validate a list of profiles in order, stopping at
the first `ConfigurationError`. -/
def validateAll : List UserProfile → Except ConfigurationError Unit
  | [] => .ok ()
  | p :: ps =>
    match validateProfile p with
    | .ok _ => validateAll ps
    | .error e => .error e

/-- Modelled from the spec: run startup. All profiles are validated before
any Virtual User is created; only when every profile is valid does the
Population Manager obtain its initial user population. -/
def startRun (profiles : List UserProfile) (h0 : Headers) :
    Except ConfigurationError (List VUser) :=
  match validateAll profiles with
  | .ok _ => .ok (profiles.map (fun _ => initUser h0))
  | .error e => .error e

/-- Whether an `Except` result is a success. -/
def exceptIsOk {ε α : Type} : Except ε α → Bool
  | .ok _ => true
  | .error _ => false

/-- Modelled from the spec: the Outcome Aggregator's record store — the set
of `OutcomeRecord`s observed so far, as a list in arrival order. Concurrency
is modelled by serializing the atomic `record` calls in an arbitrary
interleaving order; any interleaving of the same calls is a permutation of
any other. -/
abbrev Aggregator := List OutcomeRecord

/-- Modelled from the spec: `record(outcome)` — an atomic append to the
record store. -/
def record (agg : Aggregator) (o : OutcomeRecord) : Aggregator := agg ++ [o]

/-- Modelled from the spec: apply a serialized sequence of `record` calls. -/
def applyOps (agg : Aggregator) (ops : List OutcomeRecord) : Aggregator :=
  ops.foldl record agg

/-- Modelled from the spec: the `AggregateStats` summary — total count,
success count, and per-action counts; recomputed from the record store,
never incrementally maintained. -/
structure AggregateStats where
  count : Nat
  success_count : Nat
  actionCount : String → Nat

/-- Modelled from the spec: `snapshot()` — recompute summary statistics from
the records observed so far. -/
def snapshot (agg : Aggregator) : AggregateStats :=
  ⟨agg.length,
   (agg.filter (fun o => o.succeeded)).length,
   fun n => (agg.filter (fun o => o.action_name = n)).length⟩

/-- Modelled from the spec: the Population Manager's ramp-up, with time
counted in whole seconds since start. With target count `target` and spawn
rate `rate` instances per second, the number of instances of one profile
alive `t` seconds after start is `rate * t`, capped at `target`. -/
def spawnedCount (target rate t : Nat) : Nat :=
  min target (rate * t)

/-- Modelled from the spec: the whole population during ramp-up — each
profile's instance count, computed from that profile's own target alone,
so all profiles ramp up concurrently and independently. -/
def rampPopulation (targets : List (String × Nat)) (rate t : Nat) :
    List (String × Nat) :=
  targets.map (fun pr => (pr.1, spawnedCount pr.2 rate t))

/-- A successful `App Home` outcome, used as a concrete record. -/
def recA : OutcomeRecord := ⟨"App Home", 0, true, some 200⟩

/-- A failed `App Home` outcome, used as a concrete record. -/
def recB : OutcomeRecord := ⟨"App Home", 0, false, some 500⟩

/-- The `SpectorUser` class viewed as its own component type: the engine
loop with the class's members — its header assignment, its action list —
inlined, as in the source class definition. -/
def SpectorUser.step (s : VUser) (stop : Bool) (r : Nat)
    (out : ExecOutcome) : VUser :=
  match s.phase with
  | .Starting => { s with phase := .Acting, headers := SpectorUser.on_start s.headers }
  | .Acting =>
    if stop then { s with phase := .Stopped }
    else
      match select SpectorUser.actions r with
      | .ok a => { s with phase := .Waiting, records := s.records ++ [mkRecord a.name out] }
      | .error _ => { s with phase := .Stopped }
  | .Waiting => if stop then { s with phase := .Stopped } else { s with phase := .Acting }
  | .Stopped => s

/-- The `HighLoadUser` class viewed as its own component type: the engine
loop with the class's members inlined. -/
def HighLoadUser.step (s : VUser) (stop : Bool) (r : Nat)
    (out : ExecOutcome) : VUser :=
  match s.phase with
  | .Starting => { s with phase := .Acting, headers := HighLoadUser.on_start s.headers }
  | .Acting =>
    if stop then { s with phase := .Stopped }
    else
      match select HighLoadUser.actions r with
      | .ok a => { s with phase := .Waiting, records := s.records ++ [mkRecord a.name out] }
      | .error _ => { s with phase := .Stopped }
  | .Waiting => if stop then { s with phase := .Stopped } else { s with phase := .Acting }
  | .Stopped => s

theorem cumWeight_zero (actions : List ActionSpec) : cumWeight actions 0 = 0 := rfl

theorem cumWeight_cons_succ (a : ActionSpec) (rest : List ActionSpec) (i : Nat) :
    cumWeight (a :: rest) (i + 1) = a.weight + cumWeight rest i := by
  simp [cumWeight, totalWeight]

theorem cumWeight_mono (actions : List ActionSpec) {i j : Nat} (h : i ≤ j) :
    cumWeight actions i ≤ cumWeight actions j := by
  induction actions generalizing i j with
  | nil => simp [cumWeight, totalWeight]
  | cons a rest ih =>
    cases i with
    | zero => simp [cumWeight_zero]
    | succ i =>
      cases j with
      | zero => omega
      | succ j =>
        rw [cumWeight_cons_succ, cumWeight_cons_succ]
        exact Nat.add_le_add_left (ih (Nat.le_of_succ_le_succ h)) _

theorem cumWeight_length (actions : List ActionSpec) :
    cumWeight actions actions.length = totalWeight actions := by
  simp [cumWeight]

theorem cumWeight_le_total (actions : List ActionSpec) (i : Nat) :
    cumWeight actions i ≤ totalWeight actions := by
  rcases Nat.le_total i actions.length with h | h
  · exact cumWeight_length actions ▸ cumWeight_mono actions h
  · simp [cumWeight, List.take_of_length_le h, totalWeight]

/-- The walk returns the action at index `i` whenever the draw `r` lies in
the cumulative-weight window of index `i`. -/
theorem selectWalk_of_window (actions : List ActionSpec) (r i : Nat)
    (hi : i < actions.length)
    (hlo : cumWeight actions i ≤ r) (hhi : r < cumWeight actions (i + 1)) :
    selectWalk actions r = actions.get? i := by
  induction actions generalizing r i with
  | nil => simp at hi
  | cons a rest ih =>
    cases i with
    | zero =>
      have hr : r < a.weight := by
        have := hhi
        rw [cumWeight_cons_succ] at this
        simpa [cumWeight_zero, cumWeight, totalWeight] using this
      simp [selectWalk, hr]
    | succ i =>
      have hwr : a.weight ≤ r := by
        have := hlo
        rw [cumWeight_cons_succ] at this
        omega
      have hr : ¬ r < a.weight := by omega
      have hlo' : cumWeight rest i ≤ r - a.weight := by
        have := hlo
        rw [cumWeight_cons_succ] at this
        omega
      have hhi' : r - a.weight < cumWeight rest (i + 1) := by
        have := hhi
        rw [cumWeight_cons_succ] at this
        omega
      have hi' : i < rest.length := by simpa using hi
      simp [selectWalk, hr, ih (r - a.weight) i hi' hlo' hhi']

/-- Conversely, whenever the walk returns an action there is an index whose
cumulative-weight window contains the draw and which holds that action. -/
theorem selectWalk_window_of_some (actions : List ActionSpec) (r : Nat)
    (a : ActionSpec) (h : selectWalk actions r = some a) :
    ∃ i, i < actions.length ∧ actions.get? i = some a ∧
      cumWeight actions i ≤ r ∧ r < cumWeight actions (i + 1) := by
  induction actions generalizing r with
  | nil => simp [selectWalk] at h
  | cons b rest ih =>
    by_cases hr : r < b.weight
    · refine ⟨0, by simp, ?_, by simp [cumWeight_zero], ?_⟩
      · simp [selectWalk, hr] at h
        simp [h]
      · rw [cumWeight_cons_succ]
        omega
    · simp [selectWalk, hr] at h
      obtain ⟨i, hi, hget, hlo, hhi⟩ := ih (r - b.weight) h
      refine ⟨i + 1, by simpa using Nat.succ_lt_succ hi, by simpa using hget, ?_, ?_⟩
      · rw [cumWeight_cons_succ]
        omega
      · rw [cumWeight_cons_succ]
        omega

/-- The walk succeeds on every draw below the total weight. -/
theorem selectWalk_isSome (actions : List ActionSpec) (r : Nat)
    (hr : r < totalWeight actions) : ∃ a, selectWalk actions r = some a := by
  induction actions generalizing r with
  | nil => simp [totalWeight] at hr
  | cons a rest ih =>
    by_cases h : r < a.weight
    · exact ⟨a, by simp [selectWalk, h]⟩
    · have hr' : r - a.weight < totalWeight rest := by
        simp [totalWeight] at hr ⊢
        omega
      obtain ⟨b, hb⟩ := ih (r - a.weight) hr'
      exact ⟨b, by simp [selectWalk, h, hb]⟩

theorem cumWeight_succ (actions : List ActionSpec) (i : Nat)
    (hi : i < actions.length) :
    cumWeight actions (i + 1) =
      cumWeight actions i + (actions.get ⟨i, hi⟩).weight := by
  have hm : ∀ k, cumWeight actions k = ((actions.map (fun a => a.weight)).take k).sum := by
    intro k
    simp [cumWeight, totalWeight, List.map_take]
  have hi' : i < (actions.map (fun a => a.weight)).length := by simpa using hi
  rw [hm, hm, List.sum_take_succ _ i hi']
  simp

/-- The draws selecting the action at index `i` are exactly the draws in that
action's cumulative-weight window, provided the action sequence has no
duplicate entries. -/
theorem selectWalk_filter_eq_Ico (actions : List ActionSpec) (i : Nat)
    (hi : i < actions.length) (hnd : actions.Nodup) :
    (Finset.range (totalWeight actions)).filter
        (fun r => selectWalk actions r = actions.get? i) =
      Finset.Ico (cumWeight actions i) (cumWeight actions (i + 1)) := by
  ext r
  simp only [Finset.mem_filter, Finset.mem_range, Finset.mem_Ico]
  constructor
  · rintro ⟨-, hwalk⟩
    have hget : actions.get? i = some (actions.get ⟨i, hi⟩) := by
      simp [List.get?_eq_get hi]
    obtain ⟨j, hj, hjget, hlo, hhi⟩ :=
      selectWalk_window_of_some actions r _ (hget ▸ hwalk)
    have hij : j = i := by
      apply List.getElem?_inj hj hnd
      rw [← List.get?_eq_getElem?, ← List.get?_eq_getElem?, hjget, hget]
    subst hij
    exact ⟨hlo, hhi⟩
  · rintro ⟨hlo, hhi⟩
    refine ⟨?_, selectWalk_of_window actions r i hi hlo hhi⟩
    calc r < cumWeight actions (i + 1) := hhi
    _ ≤ totalWeight actions := cumWeight_le_total actions (i + 1)

/-- Among the `total` equally likely draws, exactly `weight i` of them select
the action at index `i`: the selection probability is `weight / total`. -/
theorem selectWalk_count (actions : List ActionSpec) (i : Nat)
    (hi : i < actions.length) (hnd : actions.Nodup) :
    ((Finset.range (totalWeight actions)).filter
        (fun r => selectWalk actions r = actions.get? i)).card =
      (actions.get ⟨i, hi⟩).weight := by
  rw [selectWalk_filter_eq_Ico actions i hi hnd, Nat.card_Ico,
    cumWeight_succ actions i hi]
  omega

theorem userStep_stop_records (p : UserProfile) (s : VUser) (r : Nat)
    (o : ExecOutcome) : (userStep p s true r o).records = s.records := by
  cases hph : s.phase <;> simp [userStep, hph]

theorem userStep_stop_not_starting (p : UserProfile) (s : VUser) (r : Nat)
    (o : ExecOutcome) : (userStep p s true r o).phase ≠ .Starting := by
  cases hph : s.phase <;> simp [userStep, hph]

theorem userStep_stop_stopped (p : UserProfile) (s : VUser) (r : Nat)
    (o : ExecOutcome) (h : s.phase ≠ .Starting) :
    (userStep p s true r o).phase = .Stopped := by
  cases hph : s.phase <;> simp_all [userStep]

theorem userStep_stopped_fix (p : UserProfile) (s : VUser) (stop : Bool)
    (r : Nat) (o : ExecOutcome) (h : s.phase = .Stopped) :
    userStep p s stop r o = s := by
  simp [userStep, h]

/-- C1: for every non-empty ordered action sequence with all weights
positive and every draw `r` in `[0, total)`, `select` succeeds and returns
the action found by walking the sequence; the walk stops at exactly the
first index whose cumulative weight exceeds `r` (the deterministic
tie-break); and among the `total` equally likely draws exactly `weight i`
select the action at index `i`, so each action is selected with probability
`weight / total`, independent of the drawing order. -/
theorem select_weighted_walk (actions : List ActionSpec) (r i : Nat)
    (hne : actions ≠ []) (hw : ∀ a ∈ actions, 0 < a.weight)
    (hnd : actions.Nodup) (hr : r < totalWeight actions)
    (hi : i < actions.length) :
    (∃ a, selectWalk actions r = some a ∧ select actions r = .ok a) ∧
    (∀ a, selectWalk actions r = some a →
      ∃ j, j < actions.length ∧ actions.get? j = some a ∧
        cumWeight actions j ≤ r ∧ r < cumWeight actions (j + 1) ∧
        ∀ k, r < cumWeight actions (k + 1) → j ≤ k) ∧
    ((Finset.range (totalWeight actions)).filter
        (fun s => selectWalk actions s = actions.get? i)).card =
      (actions.get ⟨i, hi⟩).weight := by
  have htot : totalWeight actions ≠ 0 := by omega
  have hie : actions.isEmpty = false := by
    cases actions with
    | nil => exact absurd rfl hne
    | cons a rest => rfl
  refine ⟨?_, ?_, selectWalk_count actions i hi hnd⟩
  · obtain ⟨a, ha⟩ := selectWalk_isSome actions r hr
    exact ⟨a, ha, by simp [select, hie, htot, Nat.mod_eq_of_lt hr, ha]⟩
  · intro a ha
    obtain ⟨j, hj, hget, hlo, hhi⟩ := selectWalk_window_of_some actions r a ha
    refine ⟨j, hj, hget, hlo, hhi, ?_⟩
    intro k hk
    by_contra hjk
    have hk1 : k + 1 ≤ j := by omega
    have : cumWeight actions (k + 1) ≤ cumWeight actions j :=
      cumWeight_mono actions hk1
    omega

/-- Witness for C1 at the `SpectorUser` profile: the draw `0` is below the
total weight `22`, and exactly `10` of the `22` draws select the first
action, `App Home`. -/
theorem select_weighted_walk_witness :
    0 < totalWeight SpectorUser.actions ∧
    ((Finset.range (totalWeight SpectorUser.actions)).filter
        (fun s => selectWalk SpectorUser.actions s =
          SpectorUser.actions.get? 0)).card = 10 :=
  ⟨by decide,
   (select_weighted_walk SpectorUser.actions 0 0 (by decide) (by decide)
     (by decide) (by decide) (by decide)).2.2⟩

/-- C2: for every pacing pair with `min ≤ max` and every uniform entropy
value `u` in `[0, 1]`, the delay `next_delay min max u` lies in the closed
interval `[min, max]`; and when the two endpoints coincide the returned
value is exactly that constant. The two configured pairs of the source are
`between(1, 3)` for `SpectorUser` and `between(0.5, 1)` for `HighLoadUser`. -/
theorem next_delay_in_range (mn mx u : ℚ) (hle : mn ≤ mx) (h0 : 0 ≤ u)
    (h1 : u ≤ 1) :
    mn ≤ next_delay mn mx u ∧ next_delay mn mx u ≤ mx ∧
    next_delay mn mn u = mn ∧
    SpectorUser.wait_time u = next_delay 1 3 u ∧
    HighLoadUser.wait_time u = next_delay (1/2) 1 u := by
  have hd : 0 ≤ mx - mn := by linarith
  refine ⟨?_, ?_, by simp [next_delay], rfl, rfl⟩
  · have : 0 ≤ u * (mx - mn) := mul_nonneg h0 hd
    simp only [next_delay]
    linarith
  · have : u * (mx - mn) ≤ 1 * (mx - mn) := mul_le_mul_of_nonneg_right h1 hd
    simp only [next_delay]
    linarith

/-- Witness for C2 at `SpectorUser`'s configured pacing pair `(1, 3)` with
entropy value `0`. -/
theorem next_delay_in_range_witness :
    (1 : ℚ) ≤ 3 ∧
    (1 ≤ next_delay 1 3 0 ∧ next_delay 1 3 0 ≤ 3 ∧
     next_delay 1 1 0 = 1 ∧
     SpectorUser.wait_time 0 = next_delay 1 3 0 ∧
     HighLoadUser.wait_time 0 = next_delay (1/2) 1 0) :=
  ⟨by decide, next_delay_in_range 1 3 0 (by decide) (by decide) (by decide)⟩

/-- C3: an Acting user whose action execution fails (network error or
non-success status) still produces a valid `OutcomeRecord` with
`succeeded = false` carrying the selected action's name, appends it to the
records handed to the Aggregator, and transitions to Waiting — exactly one
record, no retry, no abort, and no propagated error (`userStep` is a total
function). -/
theorem failed_action_contained (p : UserProfile) (s : VUser) (r : Nat)
    (st : Option Nat) (d : ℚ) (a : ActionSpec)
    (hph : s.phase = .Acting) (hsel : genericSelect p r = .ok a) :
    userStep p s false r (.failure st d) =
      { s with phase := .Waiting,
               records := s.records ++ [mkRecord a.name (.failure st d)] } ∧
    (mkRecord a.name (.failure st d)).succeeded = false ∧
    (mkRecord a.name (.failure st d)).action_name = a.name := by
  refine ⟨?_, rfl, rfl⟩
  simp [userStep, hph, hsel]

/-- Witness for C3: a `SpectorUser` in the Acting phase whose selected
action (`App Home`, at draw `0`) comes back with status 500. -/
theorem failed_action_contained_witness :
    (⟨.Acting, [], []⟩ : VUser).phase = .Acting ∧
    (userStep spectorProfile ⟨.Acting, [], []⟩ false 0 (.failure (some 500) 0) =
      ⟨.Waiting, [], [mkRecord "App Home" (.failure (some 500) 0)]⟩ ∧
     (mkRecord "App Home" (.failure (some 500) 0)).succeeded = false ∧
     (mkRecord "App Home" (.failure (some 500) 0)).action_name = "App Home") :=
  ⟨rfl,
   failed_action_contained spectorProfile ⟨.Acting, [], []⟩ 0 (some 500) 0
     ⟨"App Home", 10, "/app"⟩ rfl rfl⟩

/-- C4: once the stop signal is observed at step `t` the user never starts
another action — its record list never grows after `t`; within two further
steps it is in `Stopped`, which is terminal (`userStep` fixes any Stopped
state); and the loop is a total function, so it exits without raising. The
stop signal is checked before each action (Acting branch) and after each
wait (Waiting branch); the action executed in the step before the signal
was observed ran to completion and its record is retained. -/
theorem stop_signal_halts (p : UserProfile) (h0 : Headers)
    (stops : Nat → Bool) (rs : Nat → Nat) (outs : Nat → ExecOutcome)
    (t k : Nat) (s : VUser) (stop : Bool) (r : Nat) (o : ExecOutcome)
    (hmono : ∀ i j, i ≤ j → stops i = true → stops j = true)
    (ht : stops t = true) (hs : s.phase = .Stopped) :
    (userTrace p h0 stops rs outs (t + k)).records =
      (userTrace p h0 stops rs outs t).records ∧
    (userTrace p h0 stops rs outs (t + 2 + k)).phase = .Stopped ∧
    userStep p s stop r o = s := by
  have hstops : ∀ j, t ≤ j → stops j = true := fun j hj => hmono t j hj ht
  refine ⟨?_, ?_, userStep_stopped_fix p s stop r o hs⟩
  · induction k with
    | zero => rfl
    | succ k ih =>
      have h1 : stops (t + k) = true := hstops (t + k) (by omega)
      calc (userTrace p h0 stops rs outs (t + (k + 1))).records
          = (userStep p (userTrace p h0 stops rs outs (t + k)) true
              (rs (t + k)) (outs (t + k))).records := by
            rw [show t + (k + 1) = (t + k) + 1 from rfl, userTrace, h1]
        _ = (userTrace p h0 stops rs outs (t + k)).records :=
            userStep_stop_records _ _ _ _
        _ = (userTrace p h0 stops rs outs t).records := ih
  · have h1 : (userTrace p h0 stops rs outs (t + 1)).phase ≠ .Starting := by
      rw [userTrace, ht]
      exact userStep_stop_not_starting _ _ _ _
    have h2 : (userTrace p h0 stops rs outs (t + 2)).phase = .Stopped := by
      rw [show t + 2 = (t + 1) + 1 from rfl, userTrace,
        hstops (t + 1) (by omega)]
      exact userStep_stop_stopped _ _ _ _ h1
    induction k with
    | zero => exact h2
    | succ k ih =>
      rw [show t + 2 + (k + 1) = (t + 2 + k) + 1 from rfl, userTrace,
        userStep_stopped_fix _ _ _ _ _ ih]
      exact ih

/-- Witness for C4: a constantly raised stop signal observed from step `0`;
after three further steps the trace has produced no record, and by step
`2 + 3` the user sits in the terminal `Stopped` state. -/
theorem stop_signal_halts_witness :
    (userTrace spectorProfile [] (fun _ => true) (fun _ => 0)
        (fun _ => .failure none 0) (0 + 3)).records =
      (userTrace spectorProfile [] (fun _ => true) (fun _ => 0)
        (fun _ => .failure none 0) 0).records ∧
    (userTrace spectorProfile [] (fun _ => true) (fun _ => 0)
        (fun _ => .failure none 0) (0 + 2 + 3)).phase = .Stopped ∧
    userStep spectorProfile ⟨.Stopped, [], []⟩ true 0 (.failure none 0) =
      ⟨.Stopped, [], []⟩ :=
  stop_signal_halts spectorProfile [] (fun _ => true) (fun _ => 0)
    (fun _ => .failure none 0) 0 3 ⟨.Stopped, [], []⟩ true 0 (.failure none 0)
    (fun _ _ _ h => h) rfl rfl

/-- C5: during ramp-up each profile's instance count grows by at most
`spawn_rate` instances per second, never exceeds its target, and once
`rate * t ≥ target` — that is, once `t ≥ target / spawn_rate` seconds have
elapsed — the full population for that profile is reached; and within the
whole population each profile's count is computed from its own target
alone, so all profiles ramp up concurrently and independently. -/
theorem ramp_up_reaches_target (targets : List (String × Nat)) (name : String)
    (target rate t t2 : Nat)
    (hrate : 0 < rate) (ht : target ≤ rate * t)
    (hmem : (name, target) ∈ targets) :
    spawnedCount target rate t = target ∧
    spawnedCount target rate t2 ≤ target ∧
    spawnedCount target rate t2 ≤ spawnedCount target rate (t2 + 1) ∧
    spawnedCount target rate (t2 + 1) ≤ spawnedCount target rate t2 + rate ∧
    (name, spawnedCount target rate t) ∈ rampPopulation targets rate t := by
  refine ⟨?_, Nat.min_le_left _ _, ?_, ?_, ?_⟩
  · simp only [spawnedCount]
    omega
  · simp only [spawnedCount, Nat.mul_add, Nat.mul_one]
    omega
  · simp only [spawnedCount, Nat.mul_add, Nat.mul_one]
    omega
  · exact List.mem_map.mpr ⟨(name, target), hmem, rfl⟩

/-- Witness for C5: one profile with target `100` at spawn rate `10`
reaches its full population `10` seconds after start (`100 ≤ 10 * 10`). -/
theorem ramp_up_reaches_target_witness :
    100 ≤ 10 * 10 ∧
    (spawnedCount 100 10 10 = 100 ∧
     spawnedCount 100 10 3 ≤ 100 ∧
     spawnedCount 100 10 3 ≤ spawnedCount 100 10 (3 + 1) ∧
     spawnedCount 100 10 (3 + 1) ≤ spawnedCount 100 10 3 + 10 ∧
     ("SpectorUser", spawnedCount 100 10 10) ∈
       rampPopulation [("SpectorUser", 100)] 10 10) :=
  ⟨by decide,
   ramp_up_reaches_target [("SpectorUser", 100)] "SpectorUser" 100 10 10 3
     (by decide) (by decide) (by decide)⟩

theorem validateAll_error_of_mem (profiles : List UserProfile)
    (p : UserProfile) (e : ConfigurationError)
    (hmem : p ∈ profiles) (hbad : validateProfile p = .error e) :
    ∃ e2, validateAll profiles = .error e2 := by
  induction profiles with
  | nil => simp at hmem
  | cons q ps ih =>
    rcases List.mem_cons.mp hmem with h | h
    · subst h
      exact ⟨e, by simp [validateAll, hbad]⟩
    · cases hq : validateProfile q with
      | ok u =>
        obtain ⟨e2, he2⟩ := ih h
        exact ⟨e2, by simp [validateAll, hq, he2]⟩
      | error e3 => exact ⟨e3, by simp [validateAll, hq]⟩

/-- C6: `select` fails with `ConfigurationError.emptyActions` on an empty
action sequence and with a `ConfigurationError` (never `.ok`) when the
total weight is zero; and a configuration error in any profile (invalid
weights, empty action set, min > max pacing — everything `validateProfile`
rejects) makes run startup fail, so no user population is ever created and
no load is generated. -/
theorem configuration_error_aborts (actions : List ActionSpec) (r : Nat)
    (profiles : List UserProfile) (p : UserProfile) (h0 : Headers)
    (e : ConfigurationError)
    (hz : totalWeight actions = 0)
    (hmem : p ∈ profiles) (hbad : validateProfile p = .error e) :
    select [] r = .error .emptyActions ∧
    exceptIsOk (select actions r) = false ∧
    exceptIsOk (startRun profiles h0) = false := by
  refine ⟨rfl, ?_, ?_⟩
  · cases actions with
    | nil => rfl
    | cons a rest => simp [select, hz, exceptIsOk]
  · obtain ⟨e2, he2⟩ := validateAll_error_of_mem profiles p e hmem hbad
    simp [startRun, he2, exceptIsOk]

/-- Witness for C6: a zero-weight action list and a profile with an empty
action set; startup on that profile fails before any user exists. -/
theorem configuration_error_aborts_witness :
    totalWeight [(⟨"X", 0, "/x"⟩ : ActionSpec)] = 0 ∧
    (select [] 0 = .error .emptyActions ∧
     exceptIsOk (select [(⟨"X", 0, "/x"⟩ : ActionSpec)] 0) = false ∧
     exceptIsOk (startRun [⟨"Bad", [], (1, 1), none⟩] []) = false) :=
  ⟨by decide,
   configuration_error_aborts [⟨"X", 0, "/x"⟩] 0 [⟨"Bad", [], (1, 1), none⟩]
     ⟨"Bad", [], (1, 1), none⟩ [] .emptyActions (by decide)
     (List.mem_singleton_self _) rfl⟩

theorem applyOps_eq_append (ops : List OutcomeRecord) (init : Aggregator) :
    applyOps init ops = init ++ ops := by
  induction ops generalizing init with
  | nil => simp [applyOps]
  | cons o ops ih =>
    calc applyOps init (o :: ops) = applyOps (init ++ [o]) ops := rfl
    _ = (init ++ [o]) ++ ops := ih (init ++ [o])
    _ = init ++ o :: ops := by simp

/-- C7: in the interleaving model of concurrency — concurrent `record`
calls serialize atomically in an arbitrary order, and two interleavings of
the same calls are permutations of each other — the Aggregator loses no
record: any serialization equals the store with every call appended, its
length adds up exactly, any two interleavings yield permutation-equal
stores, a `snapshot` counts every record observed strictly before it, and
records already observed survive any later concurrent recording. -/
theorem aggregator_no_loss (init pre suf ops ops2 : List OutcomeRecord)
    (o : OutcomeRecord) (hperm : ops.Perm ops2) (hmem : o ∈ pre) :
    applyOps init ops = init ++ ops ∧
    (applyOps init ops).Perm (applyOps init ops2) ∧
    (applyOps init ops).length = init.length + ops.length ∧
    (snapshot (applyOps init pre)).count = init.length + pre.length ∧
    o ∈ applyOps (applyOps init pre) suf := by
  refine ⟨applyOps_eq_append ops init, ?_, ?_, ?_, ?_⟩
  · rw [applyOps_eq_append, applyOps_eq_append]
    exact hperm.append_left init
  · rw [applyOps_eq_append]
    simp
  · rw [applyOps_eq_append]
    simp [snapshot]
  · rw [applyOps_eq_append, applyOps_eq_append]
    simp [hmem]

/-- Witness for C7: two interleavings of the same two records, and a record
observed before a snapshot surviving a later `record` call. -/
theorem aggregator_no_loss_witness :
    [recA, recB].Perm [recB, recA] ∧
    (snapshot (applyOps [] [recA, recB])).count =
      List.length ([] : Aggregator) + List.length [recA, recB] ∧
    recA ∈ applyOps (applyOps [] [recA, recB]) [recB] :=
  have h := aggregator_no_loss [] [recA, recB] [recB] [recA, recB]
    [recB, recA] recA (List.Perm.swap recB recA []) (List.mem_cons_self _ _)
  ⟨List.Perm.swap recB recA [], h.2.2.2.1, h.2.2.2.2⟩

/-- C8: the two user classes of the source differ only by profile data, not
by behavior. The class-specific loops `SpectorUser.step` and
`HighLoadUser.step` coincide with the single profile-driven loop `userStep`
applied to the data instances `spectorProfile` and `highLoadProfile`, and
each class's header initialization, pacing and action list are exactly the
corresponding profile fields — so each class is fully described as a
`UserProfile` data instance rather than a distinct component type. -/
theorem user_types_are_profiles (s : VUser) (stop : Bool) (r : Nat)
    (o : ExecOutcome) (hs : Headers) (u : ℚ) :
    SpectorUser.step s stop r o = userStep spectorProfile s stop r o ∧
    HighLoadUser.step s stop r o = userStep highLoadProfile s stop r o ∧
    SpectorUser.on_start hs = genericOnStart spectorProfile hs ∧
    HighLoadUser.on_start hs = genericOnStart highLoadProfile hs ∧
    SpectorUser.wait_time u = genericWait spectorProfile u ∧
    HighLoadUser.wait_time u = genericWait highLoadProfile u ∧
    spectorProfile.actions = SpectorUser.actions ∧
    highLoadProfile.actions = HighLoadUser.actions ∧
    spectorProfile.pacing = (1, 3) ∧
    highLoadProfile.pacing = (1/2, 1) := by
  obtain ⟨ph, hd, rc⟩ := s
  refine ⟨?_, ?_, rfl, rfl, rfl, rfl, rfl, rfl, rfl, rfl⟩
  · cases ph <;> rfl
  · cases ph <;> rfl

/-- C9: `SpectorUser`'s profile is exactly the five actions App Home,
Products API, Analytics API, Forecasting API and Settings with weights
10, 5, 3, 3, 1 and total weight 22; of the 22 equally likely draws, 10
select App Home and 1 selects Settings (probabilities 10/22 and 1/22);
`HighLoadUser` has the single action Bulk Products, which every in-range
draw selects (probability 1). -/
theorem profile_weights_and_probabilities (r : Nat)
    (hr : r < totalWeight HighLoadUser.actions) :
    SpectorUser.actions.map (fun a => a.name) =
      ["App Home", "Products API", "Analytics API", "Forecasting API",
       "Settings"] ∧
    SpectorUser.actions.map (fun a => a.weight) = [10, 5, 3, 3, 1] ∧
    totalWeight SpectorUser.actions = 22 ∧
    ((Finset.range (totalWeight SpectorUser.actions)).filter
        (fun s => selectWalk SpectorUser.actions s =
          some ⟨"App Home", 10, "/app"⟩)).card = 10 ∧
    ((Finset.range (totalWeight SpectorUser.actions)).filter
        (fun s => selectWalk SpectorUser.actions s =
          some ⟨"Settings", 1, "/app/settings"⟩)).card = 1 ∧
    totalWeight HighLoadUser.actions = 1 ∧
    select HighLoadUser.actions r =
      .ok ⟨"Bulk Products", 1, "/app/api/products"⟩ := by
  have h1 : totalWeight HighLoadUser.actions = 1 := by decide
  rw [h1] at hr
  have hr0 : r = 0 := by omega
  subst hr0
  exact ⟨by decide, by decide, by decide, by decide, by decide, h1, rfl⟩

/-- Witness for C9: the draw `0` is in range for `HighLoadUser` and selects
its single Bulk Products action. -/
theorem profile_weights_witness :
    0 < totalWeight HighLoadUser.actions ∧
    select HighLoadUser.actions 0 =
      .ok ⟨"Bulk Products", 1, "/app/api/products"⟩ :=
  ⟨by decide, (profile_weights_and_probabilities 0 (by decide)).2.2.2.2.2.2⟩

/-- C10: `SpectorUser.on_start` replaces the client's default headers with
exactly the two JSON entries — assignment, not merge: the result never
depends on the prior mapping; after the Starting phase no step of the user
loop ever changes the headers again; and `HighLoadUser` never sets default
headers, leaving the transport's own defaults in place. -/
theorem headers_assigned_once (hs hs2 : Headers) (p : UserProfile)
    (s : VUser) (stop : Bool) (r : Nat) (o : ExecOutcome)
    (hph : s.phase ≠ .Starting) :
    SpectorUser.on_start hs =
      [("Content-Type", "application/json"), ("Accept", "application/json")] ∧
    SpectorUser.on_start hs = SpectorUser.on_start hs2 ∧
    (userStep p s stop r o).headers = s.headers ∧
    HighLoadUser.on_start hs = hs := by
  refine ⟨rfl, rfl, ?_, rfl⟩
  cases hph2 : s.phase with
  | Starting => exact absurd hph2 hph
  | Acting =>
    by_cases hstop : stop
    · simp [userStep, hph2, hstop]
    · cases hsel : genericSelect p r with
      | ok a => simp [userStep, hph2, hstop, hsel]
      | error e => simp [userStep, hph2, hstop, hsel]
  | Waiting => by_cases hstop : stop <;> simp [userStep, hph2, hstop]
  | Stopped => simp [userStep, hph2]

/-- Witness for C10: an Acting `SpectorUser` step leaves headers unchanged;
the `on_start` assignment ignores the prior mapping. -/
theorem headers_assigned_once_witness :
    (⟨.Acting, [], []⟩ : VUser).phase ≠ .Starting ∧
    (SpectorUser.on_start [] =
       [("Content-Type", "application/json"),
        ("Accept", "application/json")] ∧
     SpectorUser.on_start [] = SpectorUser.on_start [("X", "1")] ∧
     (userStep spectorProfile ⟨.Acting, [], []⟩ false 0
         (.success 200 0)).headers = (⟨.Acting, [], []⟩ : VUser).headers ∧
     HighLoadUser.on_start [] = []) :=
  ⟨by decide,
   headers_assigned_once [] [("X", "1")] spectorProfile ⟨.Acting, [], []⟩
     false 0 (.success 200 0) (by decide)⟩

end Spector
